import Mathlib

/-!
Verification of the molecule-indexing and dataset-submission pipelines of the
qca-dataset-submission repository.

Two scripts are embedded:

* `6-25-19-smirnoff99Frost-coverage/create_optimization_dataset.py`
  (`read_molecules` and the `create_optimization_dataset` submit loop), and
* `2020-03-12-OpenFF-Gen-2-Torsion-Set-2-Coverage/02_create_torsiondrive_dataset.py`
  (the module-level loader, connectivity check and entry loop).

Opaque collaborators (the chemistry toolkit, the remote compute service, JSON
parsing) are modelled as type parameters and oracle functions; the remote
service's visible behaviour is captured as a trace of call events.
-/

namespace QCA

/-! ### Decimal rendering of a natural number

Models Python string formatting of a nonnegative int, as used by the f-string
`f'\x7bindex\x7d-\x7bindex_count\x7d'` in `read_molecules`: most significant
digit first, no sign, no leading zeros (except for `0` itself). -/

/-- Structural helper for `decRepr`: the first argument is recursion fuel,
needed only so the definition reduces by kernel computation; any fuel above
the number being rendered gives the same answer (`decReprAux_stable`). -/
def decReprAux : Nat → Nat → List Char
  | 0, _ => []
  | fuel + 1, n =>
    if n < 10 then [Char.ofNat (48 + n)]
    else decReprAux fuel (n / 10) ++ [Char.ofNat (48 + n % 10)]

/-- Decimal digit characters of a natural number, most significant first;
models Python `str` on a nonnegative `int`. -/
def decRepr (n : Nat) : List Char := decReprAux (n + 1) n

/-- String form of `decRepr`; models the Python expression `str(n)` (equally,
`f'\x7bn\x7d'`) for a nonnegative int `n`. -/
def pyStrNat (n : Nat) : String := String.mk (decRepr n)

/-- Models the Python f-string used by `read_molecules` to build a derived key:
the base identifier, a dash, and the decimal count. -/
def mkKey (base : String) (count : Nat) : String := base ++ "-" ++ pyStrNat count

/-! ### Data model shared by both pipelines

A JSON object of descriptive string identifiers (cmiles attributes) is an
association list in insertion order; a Python `dict` keyed by strings is
likewise an association list in insertion order, since both scripts only ever
append fresh keys and iterate in insertion order. -/

/-- Attribute mapping (`cmiles_identifiers` / `attributes`): JSON object of
string values, in insertion order. -/
abbrev Attrs := List (String × String)

/-- Python `d[k]` lookup on a string-keyed mapping: the value at the first
matching key, if any. -/
def lookupKey (d : List (String × α)) (k : String) : Option α :=
  (d.find? (fun p => p.1 == k)).map (fun p => p.2)

/-- Python `k in d` membership test on a string-keyed mapping. -/
def hasKey (d : List (String × α)) (k : String) : Bool :=
  d.any (fun p => p.1 == k)

/-- Python `d.get(k, \x7b\x7d)` on the attributes mapping: lookup with empty
default. -/
def getAttrsD (ma : List (String × Attrs)) (k : String) : Attrs :=
  (lookupKey ma k).getD []

/-- Python exceptions that the embedded code can raise. -/
inductive PyError where
  | keyError (key : String)
  | assertionError (msg : String)
  | fileNotFoundError (path : String)
  | otherError (msg : String)
deriving DecidableEq

/-! ### Optimization pipeline: `read_molecules`
(`6-25-19-smirnoff99Frost-coverage/create_optimization_dataset.py`, lines
38-56). Raw initial-molecule payloads are opaque to this script, hence a type
parameter `M`. -/

/-- One element of the input list loaded from the JSON file: a record
`\x7b'initial_molecules': [..], 'cmiles_identifiers': \x7b..\x7d\x7d`. -/
structure MRecord (M : Type) where
  initial_molecules : List M
  cmiles_identifiers : Attrs
deriving DecidableEq

/-- A `qcelemental` molecule object built from raw data. Construction
(`Molecule.from_data`) is an external-toolkit parse; it is modelled as a
wrapper that carries the raw payload. -/
structure Molecule (M : Type) where
  data : M
deriving DecidableEq

/-- Models `qcelemental.models.Molecule.from_data`. -/
def Molecule.from_data (d : M) : Molecule M := ⟨d⟩

/-- `molecules_dict`: insertion-ordered mapping from derived index to Molecule. -/
abbrev MolDict (M : Type) := List (String × Molecule M)

/-- `molecule_attributes`: insertion-ordered mapping from derived index to the
record's attribute mapping. -/
abbrev AttrDict := List (String × Attrs)

/-- Models the `collections.Counter` update `index_counter[index] += 1`. -/
def bumpCounter (cnt : String → Nat) (index : String) : String → Nat :=
  fun s => if s == index then cnt s + 1 else cnt s

/-- Inner loop of `read_molecules` (lines 47-55): one record's conformers.
For each initial molecule: build the Molecule, read the counter, derive
`this_index`, bump the counter, assert the index is fresh in
`molecules_dict`, and append to both dictionaries. -/
def readMoleculesConformers (cmiles : Attrs) (index : String) :
    List M → (String → Nat) → MolDict M → AttrDict →
    Except PyError ((String → Nat) × MolDict M × AttrDict)
  | [], cnt, md, ma => .ok (cnt, md, ma)
  | im :: rest, cnt, md, ma =>
    let qcel_molecule := Molecule.from_data im
    let index_count := cnt index
    let this_index := mkKey index index_count
    let cnt1 := bumpCounter cnt index
    if hasKey md this_index then
      .error (.assertionError "Multiple molecules have the same index")
    else
      readMoleculesConformers cmiles index rest cnt1
        (md ++ [(this_index, qcel_molecule)]) (ma ++ [(this_index, cmiles)])

/-- Outer loop of `read_molecules` (lines 43-55): for each record, read the
base identifier from `cmiles_identifiers['canonical_isomeric_smiles']`
(a missing key raises `KeyError`, as in Python), then process its conformers. -/
def readMoleculesLoop :
    List (MRecord M) → (String → Nat) → MolDict M → AttrDict →
    Except PyError (MolDict M × AttrDict)
  | [], _, md, ma => .ok (md, ma)
  | r :: rest, cnt, md, ma =>
    match lookupKey r.cmiles_identifiers "canonical_isomeric_smiles" with
    | none => .error (.keyError "canonical_isomeric_smiles")
    | some index =>
      match readMoleculesConformers r.cmiles_identifiers index
          r.initial_molecules cnt md ma with
      | .error e => .error e
      | .ok (cnt1, md1, ma1) => readMoleculesLoop rest cnt1 md1 ma1

/-- Models `read_molecules` applied to the already-loaded JSON list (lines
38-56): empty dictionaries, a fresh `Counter` (every count 0), then the loop. -/
def readMolecules (l : List (MRecord M)) : Except PyError (MolDict M × AttrDict) :=
  readMoleculesLoop l (fun _ => 0) [] []

/-- Base identifiers of the input in molecule-encounter order: each record
contributes its `canonical_isomeric_smiles` once per initial molecule. Records
whose attribute mapping lacks the key make `readMolecules` raise instead; the
placeholder value is never reached on successful runs. -/
def encounterBases (l : List (MRecord M)) : List String :=
  l.flatMap (fun r =>
    List.replicate r.initial_molecules.length
      ((lookupKey r.cmiles_identifiers "canonical_isomeric_smiles").getD ""))

/-- Derived keys for a sequence of base identifiers, starting from a given
counter state: the specification-side view of the keys `read_molecules`
assigns. -/
def keysFor (cnt : String → Nat) : List String → List String
  | [] => []
  | b :: rest => mkKey b (cnt b) :: keysFor (bumpCounter cnt b) rest

/-- Does a `read_molecules` outcome consist of the duplicate-index assertion
failing (`Multiple molecules have the same index`)? -/
def isDupIndexAssert (r : Except PyError (MolDict M × AttrDict)) : Bool :=
  match r with
  | .error (.assertionError _) => true
  | _ => false

/-! ### Remote service interface

Both submit loops talk to the remote compute-management service through a
client; the service's visible behaviour is modelled as a trace of call events,
and the outcome of each `add_entry` call is supplied by an oracle keyed by the
entry name. -/

/-- Outcome of a remote `add_entry` call: success, a duplicate-key rejection
(Python `KeyError`), or any other remote failure. -/
inductive AddResult where
  | ok
  | keyError
  | otherError
deriving DecidableEq

/-! ### Optimization pipeline: `create_optimization_dataset`
(`6-25-19-smirnoff99Frost-coverage/create_optimization_dataset.py`, lines
91-107). Client construction, dataset creation and printing are unmodelled
local/remote side effects; the calls that mutate the remote dataset are
recorded as events. -/

/-- Remote calls made by `create_optimization_dataset`, in order. The remote
API also offers `save`, which this script never calls. -/
inductive OptEvent (M : Type) where
  | addSpecification (spec_name : String)
  | addEntry (index : String) (molecule : Molecule M) (attributes : Attrs)
      (result : AddResult)
  | save
  | compute (spec_name : String)
deriving DecidableEq

/-- Result of a run of `create_optimization_dataset`: the trace of remote
calls, and the uncaught exception if the run aborted. -/
structure OptRun (M : Type) where
  trace : List (OptEvent M)
  error : Option PyError
deriving DecidableEq

/-- Entry loop of `create_optimization_dataset` (lines 100-103): for each
molecule, read its attributes with `molecule_attributes.get(molecule_index,
\x7b\x7d)` and call `ds.add_entry`. There is no exception handler: any
`add_entry` failure propagates and aborts the run. -/
def optAddEntries (ar : String → AddResult) :
    MolDict M → AttrDict → List (OptEvent M) → OptRun M
  | [], _, tr => ⟨tr, none⟩
  | (molecule_index, molecule) :: rest, ma, tr =>
    let attributes := getAttrsD ma molecule_index
    let ev := OptEvent.addEntry molecule_index molecule attributes (ar molecule_index)
    match ar molecule_index with
    | .ok => optAddEntries ar rest ma (tr ++ [ev])
    | .keyError => ⟨tr ++ [ev], some (.keyError molecule_index)⟩
    | .otherError => ⟨tr ++ [ev], some (.otherError molecule_index)⟩

/-- Models `create_optimization_dataset` (lines 91-107): register the
specification, add every molecule, and optionally trigger compute. The script
never calls `ds.save()`. -/
def create_optimization_dataset (ar : String → AddResult)
    (molecules_dict : MolDict M) (spec_name : String)
    (molecule_attributes : AttrDict) (start_compute : Bool) : OptRun M :=
  let r := optAddEntries ar molecules_dict molecule_attributes
    [OptEvent.addSpecification spec_name]
  match r.error with
  | some _ => r
  | none =>
    if start_compute then ⟨r.trace ++ [OptEvent.compute spec_name], none⟩ else r

/-- Is an optimization-pipeline event a `ds.save()` call? -/
def OptEvent.isSave : OptEvent M → Bool
  | .save => true
  | _ => false

/-- Is an optimization-pipeline event an `ds.add_entry` call? -/
def OptEvent.isAddEntry : OptEvent M → Bool
  | .addEntry _ _ _ _ => true
  | _ => false

/-! ### Torsion pipeline: module-level loader and entry loop
(`2020-03-12-OpenFF-Gen-2-Torsion-Set-2-Coverage/02_create_torsiondrive_dataset.py`).
-/

/-- Raw initial-molecule payload of the torsion pipeline: the connectivity
check reads its `symbols` and `geometry` fields (through the toolkit's
`Molecule(**raw)` constructor, which preserves them); the geometry itself is
opaque, hence a type parameter `G`. -/
structure RawMolecule (G : Type) where
  symbols : List String
  geometry : G
deriving DecidableEq

/-- One value of the `selected_torsions` mapping: a record
`\x7b'initial_molecules': [..], 'atom_indices': [..], 'attributes': \x7b..\x7d\x7d`. -/
structure TorsionData (G : Type) where
  initial_molecules : List (RawMolecule G)
  atom_indices : List (List Nat)
  attributes : Attrs
deriving DecidableEq

/-- Remote calls made by the torsion entry loop, in order. The attempted
`ds.add_entry` call is recorded together with the service's response. -/
inductive TEvent (G : Type) where
  | addEntry (name : String) (initial_molecules : List (RawMolecule G))
      (atom_indices : List (List Nat)) (grid_spacings : List Nat)
      (attributes : Attrs) (result : AddResult)
  | save
deriving DecidableEq

/-- Result of the torsion entry loop: the trace of remote calls, the success
counter `i`, and the uncaught exception if the run aborted. -/
structure TRun (G : Type) where
  trace : List (TEvent G)
  i : Nat
  error : Option PyError
deriving DecidableEq

/-- The connectivity sanity condition of the torsion pipeline (line 107):
`(len(conn) + 3) > len(molecule.symbols)` for the connectivity guessed from
the first molecule's symbols and geometry. `gc` models the external
`qcel.molutil.guess_connectivity`. -/
def connCheck (gc : List String → G → List (Nat × Nat)) (m : RawMolecule G) : Bool :=
  decide ((gc m.symbols m.geometry).length + 3 > m.symbols.length)

/-- Torsion entry loop (lines 94-127): per entry, build `grid_spacings` as
`[15] * len(atom_indices)`, run the connectivity assertion on
`initial_molecules[0]` (an empty list, impossible for real torsion records,
would raise `IndexError`, modelled as `otherError`), then try `ds.add_entry`:
on success bump `i` and save when `i` reaches a multiple of 30; on `KeyError`
continue with the next entry; on any other error abort. After the loop,
`ds.save()` once unconditionally. -/
def torsionLoop (gc : List String → G → List (Nat × Nat)) (ar : String → AddResult) :
    List (String × TorsionData G) → Nat → List (TEvent G) → TRun G
  | [], i, tr => ⟨tr ++ [.save], i, none⟩
  | (canonical_torsion_index, td) :: rest, i, tr =>
    let grid_spacings := List.replicate td.atom_indices.length 15
    match td.initial_molecules with
    | [] => ⟨tr, i, some (.otherError "IndexError")⟩
    | m0 :: _ =>
      if connCheck gc m0 then
        let ev := TEvent.addEntry canonical_torsion_index td.initial_molecules
          td.atom_indices grid_spacings td.attributes (ar canonical_torsion_index)
        match ar canonical_torsion_index with
        | .ok =>
          if (i + 1) % 30 == 0 then
            torsionLoop gc ar rest (i + 1) (tr ++ [ev, .save])
          else
            torsionLoop gc ar rest (i + 1) (tr ++ [ev])
        | .keyError => torsionLoop gc ar rest i (tr ++ [ev])
        | .otherError => ⟨tr ++ [ev], i, some (.otherError canonical_torsion_index)⟩
      else ⟨tr, i, some (.assertionError "connectivity")⟩

/-- The torsion submitter applied to the loaded mapping: the loop starting
from `i = 0` with an empty trace (lines 94-127). -/
def torsionRun (gc : List String → G → List (Nat × Nat)) (ar : String → AddResult)
    (selected_torsions : List (String × TorsionData G)) : TRun G :=
  torsionLoop gc ar selected_torsions 0 []

/-- Is a torsion-pipeline event a `ds.save()` call? -/
def TEvent.isSave : TEvent G → Bool
  | .save => true
  | _ => false

/-- Is a torsion-pipeline event a successful `ds.add_entry` call? -/
def TEvent.isOkAdd : TEvent G → Bool
  | .addEntry _ _ _ _ _ .ok => true
  | _ => false

/-- Is a torsion-pipeline event an attempted `ds.add_entry` call? -/
def TEvent.isAddEntry : TEvent G → Bool
  | .addEntry _ _ _ _ _ _ => true
  | _ => false

/-- Number of successful additions recorded in a torsion trace. -/
def okCount (tr : List (TEvent G)) : Nat := tr.countP (fun e => e.isOkAdd)

/-! ### Torsion pipeline: module-level loader (lines 36-39)

The filesystem is modelled explicitly; every operation returns the (possibly
updated) filesystem, so that what does and does not write to disk is visible. -/

/-- A member of a tar archive. -/
structure TarMember where
  name : String
  content : String
deriving DecidableEq

/-- Local filesystem state: plain files, and tar.gz archives with their
members. -/
structure FileSystem where
  files : List (String × String)
  archives : List (String × List TarMember)
deriving DecidableEq

/-- Models `os.path.exists`. -/
def pathExists (fs : FileSystem) (p : String) : Bool := hasKey fs.files p

/-- Models `open(p)` followed by `json.load` up to parsing: the raw contents,
or `FileNotFoundError`. -/
def openFile (fs : FileSystem) (p : String) : Except PyError String :=
  match lookupKey fs.files p with
  | some contents => .ok contents
  | none => .error (.fileNotFoundError p)

/-- Models `tarfile.open(p)`: the archive's member list, or
`FileNotFoundError`. -/
def tarOpen (fs : FileSystem) (p : String) : Except PyError (List TarMember) :=
  match lookupKey fs.archives p with
  | some members => .ok members
  | none => .error (.fileNotFoundError p)

/-- Models `TarFile.extractfile(name)`: returns a reader over the member's
bytes, or raises `KeyError` for a missing member. It returns the filesystem
UNCHANGED: unlike `TarFile.extract`, `extractfile` writes nothing to disk. -/
def extractfile (fs : FileSystem) (members : List TarMember) (name : String) :
    Except PyError (FileSystem × String) :=
  match members.find? (fun m => m.name == name) with
  | some m => .ok (fs, m.content)
  | none => .error (.keyError name)

/-- Models `read_selected_torsions` (lines 14-31): open the file and parse its
JSON contents with the opaque parser `parse`, returning the parsed mapping
unmodified. -/
def read_selected_torsions (parse : String → Except PyError J)
    (fs : FileSystem) (input_json : String) : Except PyError J :=
  match openFile fs input_json with
  | .error e => .error e
  | .ok contents => parse contents

/-- Models the module-level loader (lines 36-39): if
`coverage_selected_torsions.json` does not exist, open the co-located archive
and call `extractfile` on it (the returned reader is discarded, and the
filesystem is unchanged); then `read_selected_torsions` on the path. -/
def loadSelectedTorsions (parse : String → Except PyError J)
    (fs : FileSystem) : Except PyError J :=
  if pathExists fs "coverage_selected_torsions.json" then
    read_selected_torsions parse fs "coverage_selected_torsions.json"
  else
    match tarOpen fs "coverage_selected_torsions.json.tar.gz" with
    | .error e => .error e
    | .ok members =>
      match extractfile fs members "coverage_selected_torsions.json" with
      | .error e => .error e
      | .ok (fs1, _) =>
        read_selected_torsions parse fs1 "coverage_selected_torsions.json"

/-! ### Specification-side views of the indexer -/

/-- Counter state after a sequence of base identifiers has been counted:
each identifier's count grows by its number of occurrences. -/
def afterCnt (cnt : String → Nat) (bs : List String) : String → Nat :=
  fun s => cnt s + bs.count s

/-- All Molecule objects `read_molecules` builds, in encounter order. -/
def allMolecules (l : List (MRecord M)) : List (Molecule M) :=
  l.flatMap (fun r => r.initial_molecules.map Molecule.from_data)

/-- The attribute mapping carried by each molecule, in encounter order: each
record contributes its `cmiles_identifiers` once per initial molecule. -/
def allAttrs (l : List (MRecord M)) : List Attrs :=
  l.flatMap (fun r => List.replicate r.initial_molecules.length r.cmiles_identifiers)

theorem decReprAux_stable (n : Nat) : ∀ f₁ f₂, n < f₁ → n < f₂ →
    decReprAux f₁ n = decReprAux f₂ n := by
  induction n using Nat.strong_induction_on with
  | _ n ih =>
    intro f₁ f₂ h₁ h₂
    match f₁, f₂ with
    | g₁ + 1, g₂ + 1 =>
      by_cases h : n < 10
      · simp [decReprAux, h]
      · simp only [decReprAux, if_neg h]
        have hlt : n / 10 < n := Nat.div_lt_self (by omega) (by omega)
        rw [ih (n / 10) hlt g₁ g₂ (by omega) (by omega)]

theorem decRepr_lt_ten (n : Nat) (h : n < 10) : decRepr n = [Char.ofNat (48 + n)] := by
  simp [decRepr, decReprAux, h]

theorem decRepr_ge_ten (n : Nat) (h : ¬ n < 10) :
    decRepr n = decRepr (n / 10) ++ [Char.ofNat (48 + n % 10)] := by
  have key : ∀ m fuel, m < fuel → ¬ m < 10 →
      decReprAux fuel m = decRepr (m / 10) ++ [Char.ofNat (48 + m % 10)] := by
    intro m fuel hf hm
    match fuel with
    | g + 1 =>
      have hlt : m / 10 < m := Nat.div_lt_self (by omega) (by omega)
      simp only [decReprAux, if_neg hm]
      rw [decReprAux_stable (m / 10) g (m / 10 + 1) (by omega) (by omega)]
      rfl
  exact key n (n + 1) (by omega) h

theorem digitChar_ne_dash (d : Nat) (hd : d < 10) : Char.ofNat (48 + d) ≠ '-' := by
  interval_cases d <;> decide

theorem digitChar_inj (a b : Nat) (ha : a < 10) (hb : b < 10)
    (h : Char.ofNat (48 + a) = Char.ofNat (48 + b)) : a = b := by
  interval_cases a <;> interval_cases b <;> simp_all

theorem decRepr_ne_dash (n : Nat) : ∀ c ∈ decRepr n, c ≠ '-' := by
  induction n using Nat.strong_induction_on with
  | _ n ih =>
    by_cases h : n < 10
    · rw [decRepr_lt_ten n h]
      intro c hc
      simp at hc
      subst hc
      exact digitChar_ne_dash n h
    · rw [decRepr_ge_ten n h]
      intro c hc
      rcases List.mem_append.mp hc with h1 | h2
      · exact ih (n / 10) (Nat.div_lt_self (by omega) (by omega)) c h1
      · simp at h2
        subst h2
        exact digitChar_ne_dash (n % 10) (Nat.mod_lt _ (by omega))

theorem decRepr_ne_nil (n : Nat) : decRepr n ≠ [] := by
  by_cases h : n < 10
  · rw [decRepr_lt_ten n h]; simp
  · rw [decRepr_ge_ten n h]; simp

theorem decRepr_inj (m : Nat) : ∀ n, decRepr m = decRepr n → m = n := by
  induction m using Nat.strong_induction_on with
  | _ m ih =>
    intro n h
    by_cases hm : m < 10 <;> by_cases hn : n < 10
    · rw [decRepr_lt_ten m hm, decRepr_lt_ten n hn] at h
      simp at h
      exact digitChar_inj m n hm hn h
    · rw [decRepr_lt_ten m hm, decRepr_ge_ten n hn] at h
      have : (1 : Nat) = (decRepr (n / 10)).length + 1 := by
        simpa using congrArg List.length h
      have hnil : decRepr (n / 10) = [] := by
        cases hq : decRepr (n / 10) with
        | nil => rfl
        | cons a l => rw [hq] at this; simp at this
      exact absurd hnil (decRepr_ne_nil _)
    · rw [decRepr_ge_ten m hm, decRepr_lt_ten n hn] at h
      have : (decRepr (m / 10)).length + 1 = (1 : Nat) := by
        simpa using congrArg List.length h
      have hnil : decRepr (m / 10) = [] := by
        cases hq : decRepr (m / 10) with
        | nil => rfl
        | cons a l => rw [hq] at this; simp at this
      exact absurd hnil (decRepr_ne_nil _)
    · rw [decRepr_ge_ten m hm, decRepr_ge_ten n hn] at h
      have hrev := congrArg List.reverse h
      simp at hrev
      obtain ⟨hc, hrest⟩ := hrev
      have hdiv : m / 10 = n / 10 := by
        apply ih (m / 10) (Nat.div_lt_self (by omega) (by omega))
        have := congrArg List.reverse hrest
        simpa using this
      have hmod : m % 10 = n % 10 :=
        digitChar_inj _ _ (Nat.mod_lt _ (by omega)) (Nat.mod_lt _ (by omega)) hc
      omega

/-- Splitting a list at a distinguished character that occurs in neither prefix
is unambiguous. -/
theorem append_cons_inj (c : Char) :
    ∀ (a₁ a₂ r₁ r₂ : List Char), c ∉ a₁ → c ∉ a₂ →
      a₁ ++ c :: r₁ = a₂ ++ c :: r₂ → a₁ = a₂ ∧ r₁ = r₂ := by
  intro a₁
  induction a₁ with
  | nil =>
    intro a₂ r₁ r₂ _ h₂ h
    cases a₂ with
    | nil => simp_all
    | cons b m =>
      simp at h
      exact absurd (h.1 ▸ List.mem_cons_self b m) h₂
  | cons a l ih =>
    intro a₂ r₁ r₂ h₁ h₂ h
    cases a₂ with
    | nil =>
      simp at h
      exact absurd (h.1 ▸ List.mem_cons_self a l) h₁
    | cons b m =>
      simp at h
      obtain ⟨hab, hrest⟩ := h
      have := ih m r₁ r₂ (fun hc => h₁ (List.mem_cons_of_mem a hc))
        (fun hc => h₂ (List.mem_cons_of_mem b hc)) hrest
      exact ⟨by rw [hab, this.1], this.2⟩

theorem mkKey_data (base : String) (count : Nat) :
    (mkKey base count).data = base.data ++ '-' :: decRepr count := by
  simp [mkKey, pyStrNat, String.data_append]

/-- Derived keys determine their base identifier and count: splitting at the
last dash (whose suffix is all digits) recovers the pair. -/
theorem mkKey_inj (b₁ b₂ : String) (n₁ n₂ : Nat)
    (h : mkKey b₁ n₁ = mkKey b₂ n₂) : b₁ = b₂ ∧ n₁ = n₂ := by
  have hdata := congrArg String.data h
  rw [mkKey_data, mkKey_data] at hdata
  have hrev := congrArg List.reverse hdata
  simp only [List.reverse_append, List.reverse_cons] at hrev
  rw [List.append_assoc, List.append_assoc, List.singleton_append,
    List.singleton_append] at hrev
  have hsplit := append_cons_inj '-' (decRepr n₁).reverse (decRepr n₂).reverse
    b₁.data.reverse b₂.data.reverse
    (fun hc => decRepr_ne_dash n₁ '-' (List.mem_reverse.mp hc) rfl)
    (fun hc => decRepr_ne_dash n₂ '-' (List.mem_reverse.mp hc) rfl) hrev
  constructor
  · apply String.ext
    have := congrArg List.reverse hsplit.2
    simpa using this
  · apply decRepr_inj
    have := congrArg List.reverse hsplit.1
    simpa using this

/-! ### Counter and key-sequence lemmas -/

theorem afterCnt_nil (cnt : String → Nat) : afterCnt cnt [] = cnt := by
  funext s
  simp [afterCnt]

theorem afterCnt_cons (cnt : String → Nat) (b : String) (bs : List String) :
    afterCnt cnt (b :: bs) = afterCnt (bumpCounter cnt b) bs := by
  funext s
  by_cases h : s = b
  · subst h
    simp [afterCnt, bumpCounter, List.count_cons]
    omega
  · have h2 : ¬ b = s := fun hh => h hh.symm
    simp [afterCnt, bumpCounter, List.count_cons, h, h2]

theorem afterCnt_le (cnt : String → Nat) (bs : List String) (b : String) :
    cnt b ≤ afterCnt cnt bs b := Nat.le_add_right _ _

theorem bumpCounter_le (cnt : String → Nat) (b s : String) :
    cnt s ≤ bumpCounter cnt b s := by
  by_cases h : s = b <;> simp [bumpCounter, h]

theorem keysFor_length (bs : List String) : ∀ cnt, (keysFor cnt bs).length = bs.length := by
  induction bs with
  | nil => intro cnt; rfl
  | cons b rest ih => intro cnt; simp [keysFor, ih]

theorem keysFor_append (bs₁ : List String) : ∀ (bs₂ : List String) (cnt : String → Nat),
    keysFor cnt (bs₁ ++ bs₂) = keysFor cnt bs₁ ++ keysFor (afterCnt cnt bs₁) bs₂ := by
  induction bs₁ with
  | nil => intro bs₂ cnt; simp [keysFor, afterCnt_nil]
  | cons b rest ih =>
    intro bs₂ cnt
    simp only [List.cons_append, keysFor, List.append_eq]
    rw [ih bs₂ (bumpCounter cnt b), afterCnt_cons]

theorem keysFor_getElem? (bs : List String) : ∀ (cnt : String → Nat) (k : Nat) (b : String),
    bs[k]? = some b →
    (keysFor cnt bs)[k]? = some (mkKey b (cnt b + (bs.take k).count b)) := by
  induction bs with
  | nil => intro cnt k b h; simp at h
  | cons b0 rest ih =>
    intro cnt k b h
    cases k with
    | zero =>
      simp at h
      subst h
      simp [keysFor]
    | succ k =>
      rw [List.getElem?_cons_succ] at h
      simp only [keysFor, List.getElem?_cons_succ]
      rw [ih (bumpCounter cnt b0) k b h]
      have : bumpCounter cnt b0 b + (rest.take k).count b =
          cnt b + ((b0 :: rest).take (k + 1)).count b := by
        by_cases hb : b = b0
        · simp [bumpCounter, hb, List.count_cons, beq_iff_eq]
          omega
        · simp [bumpCounter, hb, List.count_cons, beq_iff_eq]
      rw [this]

theorem keysFor_mem_lt (bs : List String) : ∀ (cnt : String → Nat) (b : String) (n : Nat),
    mkKey b n ∈ keysFor cnt bs → n < afterCnt cnt bs b := by
  induction bs with
  | nil => intro cnt b n h; simp [keysFor] at h
  | cons b0 rest ih =>
    intro cnt b n h
    simp only [keysFor, List.mem_cons] at h
    rcases h with h | h
    · obtain ⟨hb, hn⟩ := mkKey_inj b b0 n (cnt b0) h
      subst hb hn
      simp [afterCnt, List.count_cons]
    · have := ih (bumpCounter cnt b0) b n h
      rw [afterCnt_cons]
      exact this

theorem keysFor_mem_le (bs : List String) : ∀ (cnt : String → Nat) (b : String) (n : Nat),
    mkKey b n ∈ keysFor cnt bs → cnt b ≤ n := by
  induction bs with
  | nil => intro cnt b n h; simp [keysFor] at h
  | cons b0 rest ih =>
    intro cnt b n h
    simp only [keysFor, List.mem_cons] at h
    rcases h with h | h
    · obtain ⟨hb, hn⟩ := mkKey_inj b b0 n (cnt b0) h
      subst hb hn
      exact Nat.le_refl _
    · exact Nat.le_trans (bumpCounter_le cnt b0 b) (ih (bumpCounter cnt b0) b n h)

theorem keysFor_nodup (bs : List String) : ∀ cnt : String → Nat, (keysFor cnt bs).Nodup := by
  induction bs with
  | nil => intro cnt; simp [keysFor]
  | cons b0 rest ih =>
    intro cnt
    simp only [keysFor, List.nodup_cons]
    refine ⟨fun hmem => ?_, ih _⟩
    have hle := keysFor_mem_le rest (bumpCounter cnt b0) b0 (cnt b0) hmem
    simp [bumpCounter] at hle

/-! ### Structure of `read_molecules` -/

theorem hasKey_iff (d : List (String × α)) (k : String) :
    hasKey d k = true ↔ k ∈ d.map Prod.fst := by
  simp [hasKey, List.any_eq_true, beq_iff_eq]

theorem map_pair_eq_zip_replicate (ks : List String) (c : α) :
    ks.map (fun k => (k, c)) = ks.zip (List.replicate ks.length c) := by
  induction ks with
  | nil => rfl
  | cons k rest ih => simp [List.replicate_succ, ih]

/-- Under the counter invariant (every key already present parses to a count
strictly below the current counter value of its base), the inner conformer
loop always succeeds, and its outputs are fully determined: the counter grows
by the number of conformers, and both dictionaries are extended by the derived
keys paired with the built molecules, resp. the record's attributes. -/
theorem readMoleculesConformers_eq (cmiles : Attrs) (index : String) :
    ∀ (ims : List M) (cnt : String → Nat) (md : MolDict M) (ma : AttrDict),
    (∀ b n, mkKey b n ∈ md.map Prod.fst → n < cnt b) →
    readMoleculesConformers cmiles index ims cnt md ma =
      .ok (afterCnt cnt (List.replicate ims.length index),
        md ++ (keysFor cnt (List.replicate ims.length index)).zip
          (ims.map Molecule.from_data),
        ma ++ (keysFor cnt (List.replicate ims.length index)).map
          (fun k => (k, cmiles))) := by
  intro ims
  induction ims with
  | nil =>
    intro cnt md ma hinv
    simp [readMoleculesConformers, keysFor, afterCnt_nil]
  | cons im rest ih =>
    intro cnt md ma hinv
    have hfresh : hasKey md (mkKey index (cnt index)) = false := by
      cases h : hasKey md (mkKey index (cnt index)) with
      | false => rfl
      | true =>
        have hmem : mkKey index (cnt index) ∈ md.map Prod.fst := (hasKey_iff md _).mp h
        exact absurd (hinv index (cnt index) hmem) (Nat.lt_irrefl _)
    have hinv1 : ∀ b n,
        mkKey b n ∈ (md ++ [(mkKey index (cnt index), Molecule.from_data im)]).map Prod.fst →
        n < bumpCounter cnt index b := by
      intro b n hmem
      rw [List.map_append] at hmem
      rcases List.mem_append.mp hmem with hold | hnew
      · exact Nat.lt_of_lt_of_le (hinv b n hold) (bumpCounter_le cnt index b)
      · simp at hnew
        obtain ⟨hb, hn⟩ := mkKey_inj b index n (cnt index) hnew
        subst hb hn
        simp [bumpCounter]
    simp only [readMoleculesConformers, hfresh, Bool.false_eq_true, if_false]
    rw [ih (bumpCounter cnt index) _ _ hinv1]
    simp [List.replicate_succ, keysFor, afterCnt_cons, List.zip_cons_cons]

/-- Counter invariant after appending the freshly derived keys. -/
theorem inv_after (cnt : String → Nat) (md : MolDict M) (bs : List String)
    (vs : List (Molecule M)) (hlen : (keysFor cnt bs).length ≤ vs.length)
    (hinv : ∀ b n, mkKey b n ∈ md.map Prod.fst → n < cnt b) :
    ∀ b n, mkKey b n ∈ (md ++ (keysFor cnt bs).zip vs).map Prod.fst →
      n < afterCnt cnt bs b := by
  intro b n hmem
  rw [List.map_append, List.map_fst_zip _ _ hlen] at hmem
  rcases List.mem_append.mp hmem with hold | hnew
  · exact Nat.lt_of_lt_of_le (hinv b n hold) (afterCnt_le cnt bs b)
  · exact keysFor_mem_lt bs cnt b n hnew

/-- Under the counter invariant, the outer loop of `read_molecules` can never
take the duplicate-index assertion branch. -/
theorem readMoleculesLoop_no_assert :
    ∀ (l : List (MRecord M)) (cnt : String → Nat) (md : MolDict M) (ma : AttrDict),
    (∀ b n, mkKey b n ∈ md.map Prod.fst → n < cnt b) →
    isDupIndexAssert (readMoleculesLoop l cnt md ma) = false := by
  intro l
  induction l with
  | nil => intro cnt md ma hinv; rfl
  | cons r rest ih =>
    intro cnt md ma hinv
    simp only [readMoleculesLoop]
    cases hlk : lookupKey r.cmiles_identifiers "canonical_isomeric_smiles" with
    | none => rfl
    | some index =>
      have hconf := readMoleculesConformers_eq r.cmiles_identifiers index
        r.initial_molecules cnt md ma hinv
      simp only [hconf]
      apply ih
      apply inv_after cnt md _ _ _ hinv
      rw [keysFor_length, List.length_replicate, List.length_map]

/-- Under the counter invariant, a successful outer loop extends both
dictionaries by exactly the derived keys paired with the built molecules,
resp. the per-record attributes, in encounter order. -/
theorem readMoleculesLoop_eq_ok :
    ∀ (l : List (MRecord M)) (cnt : String → Nat) (md : MolDict M) (ma : AttrDict)
      (mdF : MolDict M) (maF : AttrDict),
    (∀ b n, mkKey b n ∈ md.map Prod.fst → n < cnt b) →
    readMoleculesLoop l cnt md ma = .ok (mdF, maF) →
    mdF = md ++ (keysFor cnt (encounterBases l)).zip (allMolecules l) ∧
    maF = ma ++ (keysFor cnt (encounterBases l)).zip (allAttrs l) := by
  intro l
  induction l with
  | nil =>
    intro cnt md ma mdF maF hinv heq
    simp only [readMoleculesLoop, Except.ok.injEq, Prod.mk.injEq] at heq
    simp [encounterBases, allMolecules, allAttrs, keysFor, heq.1.symm, heq.2.symm]
  | cons r rest ih =>
    intro cnt md ma mdF maF hinv heq
    simp only [readMoleculesLoop] at heq
    cases hlk : lookupKey r.cmiles_identifiers "canonical_isomeric_smiles" with
    | none => rw [hlk] at heq; exact absurd heq (by simp)
    | some index =>
      have hconf := readMoleculesConformers_eq r.cmiles_identifiers index
        r.initial_molecules cnt md ma hinv
      rw [hlk] at heq
      simp only [hconf] at heq
      have hinv1 : ∀ b n,
          mkKey b n ∈ (md ++ (keysFor cnt (List.replicate r.initial_molecules.length index)).zip
            (r.initial_molecules.map Molecule.from_data)).map Prod.fst →
          n < afterCnt cnt (List.replicate r.initial_molecules.length index) b := by
        apply inv_after cnt md _ _ _ hinv
        rw [keysFor_length, List.length_replicate, List.length_map]
      obtain ⟨hmd, hma⟩ := ih _ _ _ _ _ hinv1 heq
      have hbases : encounterBases (r :: rest) =
          List.replicate r.initial_molecules.length index ++ encounterBases rest := by
        simp [encounterBases, hlk]
      have hlenk : (keysFor cnt (List.replicate r.initial_molecules.length index)).length =
          (r.initial_molecules.map Molecule.from_data).length := by
        rw [keysFor_length, List.length_replicate, List.length_map]
      have hlena : (keysFor cnt (List.replicate r.initial_molecules.length index)).length =
          (List.replicate r.initial_molecules.length r.cmiles_identifiers).length := by
        rw [keysFor_length, List.length_replicate, List.length_replicate]
      constructor
      · rw [hmd, hbases, keysFor_append]
        rw [show allMolecules (r :: rest) =
          r.initial_molecules.map Molecule.from_data ++ allMolecules rest from rfl]
        rw [List.zip_append hlenk, List.append_assoc]
      · rw [hma, hbases, keysFor_append]
        rw [show allAttrs (r :: rest) =
          List.replicate r.initial_molecules.length r.cmiles_identifiers ++ allAttrs rest from rfl]
        rw [List.zip_append hlena, List.append_assoc]
        rw [map_pair_eq_zip_replicate]
        rw [keysFor_length, List.length_replicate]

theorem length_allMolecules (l : List (MRecord M)) :
    (allMolecules l).length = (encounterBases l).length := by
  induction l with
  | nil => rfl
  | cons r rest ih =>
    have h1 : allMolecules (r :: rest) =
        r.initial_molecules.map Molecule.from_data ++ allMolecules rest := rfl
    have h2 : encounterBases (r :: rest) =
        List.replicate r.initial_molecules.length
          ((lookupKey r.cmiles_identifiers "canonical_isomeric_smiles").getD "") ++
        encounterBases rest := rfl
    rw [h1, h2]
    simp [ih]

theorem length_allAttrs (l : List (MRecord M)) :
    (allAttrs l).length = (encounterBases l).length := by
  induction l with
  | nil => rfl
  | cons r rest ih =>
    have h1 : allAttrs (r :: rest) =
        List.replicate r.initial_molecules.length r.cmiles_identifiers ++
        allAttrs rest := rfl
    have h2 : encounterBases (r :: rest) =
        List.replicate r.initial_molecules.length
          ((lookupKey r.cmiles_identifiers "canonical_isomeric_smiles").getD "") ++
        encounterBases rest := rfl
    rw [h1, h2]
    simp [ih]

/-- Shape of a successful `read_molecules` run: both dictionaries are the
derived keys zipped with the built molecules, resp. the per-record
attributes, in encounter order. -/
theorem readMolecules_ok_shape (l : List (MRecord M)) (md : MolDict M) (ma : AttrDict)
    (h : readMolecules l = .ok (md, ma)) :
    md = (keysFor (fun _ => 0) (encounterBases l)).zip (allMolecules l) ∧
    ma = (keysFor (fun _ => 0) (encounterBases l)).zip (allAttrs l) := by
  have := readMoleculesLoop_eq_ok l (fun _ => 0) [] [] md ma
    (by intro b n hmem; simp at hmem) h
  simpa using this

theorem keysFor_zero_length (bs : List String) (vs : List α)
    (hv : vs.length = bs.length) :
    ((keysFor (fun _ => 0) bs).zip vs).length = bs.length := by
  rw [List.length_zip, keysFor_length, hv, Nat.min_self]

theorem map_fst_keysFor_zip (bs : List String) (vs : List α)
    (hv : bs.length ≤ vs.length) (cnt : String → Nat) :
    ((keysFor cnt bs).zip vs).map Prod.fst = keysFor cnt bs :=
  List.map_fst_zip _ _ (by rw [keysFor_length]; exact hv)

/-! ### Claim theorems: the Indexer (`read_molecules`) -/

/-- C1: for every input list of molecule records, `read_molecules` assigns the
N-th molecule encountered under a given base identifier (the record's
`canonical_isomeric_smiles`) the key `base-N`, with N starting at 0 and
incrementing per base identifier, not globally: the k-th key inserted is the
k-th encountered base identifier dashed with the number of earlier
encounters of that same identifier, so the keys under one base are
`base-0, base-1, ...` in encounter order with no gaps or repeats. -/
theorem indexer_per_base_key_assignment (M : Type) (l : List (MRecord M))
    (md : MolDict M) (ma : AttrDict) (h : readMolecules l = .ok (md, ma)) :
    md.length = (encounterBases l).length ∧
    ∀ k b, (encounterBases l)[k]? = some b →
      (md.map Prod.fst)[k]? = some (mkKey b (((encounterBases l).take k).count b)) := by
  obtain ⟨hmd, -⟩ := readMolecules_ok_shape l md ma h
  constructor
  · rw [hmd]
    exact keysFor_zero_length _ _ (length_allMolecules l)
  · intro k b hb
    rw [hmd, map_fst_keysFor_zip _ _ (le_of_eq (length_allMolecules l).symm) _]
    have := keysFor_getElem? (encounterBases l) (fun _ => 0) k b hb
    simpa using this

/-- Witness for C1: on two one-conformer records sharing base identifier "C",
the second inserted key is "C-1" (one earlier encounter of "C"). -/
theorem indexer_per_base_key_assignment_witness :
    (([("C-0", (⟨1⟩ : Molecule Nat)), ("C-1", ⟨2⟩)] : MolDict Nat).map Prod.fst)[1]? =
      some (mkKey "C" (((encounterBases
        ([⟨[1], [("canonical_isomeric_smiles", "C")]⟩,
          ⟨[2], [("canonical_isomeric_smiles", "C")]⟩] : List (MRecord Nat))).take 1).count "C")) :=
  (indexer_per_base_key_assignment Nat
    [⟨[1], [("canonical_isomeric_smiles", "C")]⟩,
     ⟨[2], [("canonical_isomeric_smiles", "C")]⟩]
    [("C-0", ⟨1⟩), ("C-1", ⟨2⟩)]
    [("C-0", [("canonical_isomeric_smiles", "C")]),
     ("C-1", [("canonical_isomeric_smiles", "C")])] rfl).2 1 "C" rfl

/-- C7: for every valid input, the molecule map and the attributes map
returned by `read_molecules` have identical key sets, inserted in the same
iteration (equal as ordered lists of keys). -/
theorem indexer_key_sets_identical (M : Type) (l : List (MRecord M))
    (md : MolDict M) (ma : AttrDict) (h : readMolecules l = .ok (md, ma)) :
    md.map Prod.fst = ma.map Prod.fst := by
  obtain ⟨hmd, hma⟩ := readMolecules_ok_shape l md ma h
  rw [hmd, hma, map_fst_keysFor_zip _ _ (le_of_eq (length_allMolecules l).symm) _,
    map_fst_keysFor_zip _ _ (le_of_eq (length_allAttrs l).symm) _]

/-- Witness for C7: concrete two-conformer record, equal key lists. -/
theorem indexer_key_sets_identical_witness :
    ([("CCO-0", (⟨()⟩ : Molecule Unit)), ("CCO-1", ⟨()⟩)] : MolDict Unit).map Prod.fst =
    ([("CCO-0", [("canonical_isomeric_smiles", "CCO")]),
      ("CCO-1", [("canonical_isomeric_smiles", "CCO")])] : AttrDict).map Prod.fst :=
  indexer_key_sets_identical Unit
    [⟨[(), ()], [("canonical_isomeric_smiles", "CCO")]⟩]
    [("CCO-0", ⟨()⟩), ("CCO-1", ⟨()⟩)]
    [("CCO-0", [("canonical_isomeric_smiles", "CCO")]),
     ("CCO-1", [("canonical_isomeric_smiles", "CCO")])] rfl

/-- C8: the Indexer is deterministic: any two runs of `read_molecules` on the
same input data produce identical results (same key assignments, same maps). -/
theorem indexer_deterministic (M : Type) (l : List (MRecord M))
    (r1 r2 : Except PyError (MolDict M × AttrDict))
    (h1 : r1 = readMolecules l) (h2 : r2 = readMolecules l) : r1 = r2 := by
  rw [h1, h2]

/-- Witness for C8: a concrete run coincides with an independently evaluated
copy of itself. -/
theorem indexer_deterministic_witness :
    (Except.ok ([("CCO-0", (⟨()⟩ : Molecule Unit)), ("CCO-1", ⟨()⟩)],
      [("CCO-0", [("canonical_isomeric_smiles", "CCO")]),
       ("CCO-1", [("canonical_isomeric_smiles", "CCO")])]) :
      Except PyError (MolDict Unit × AttrDict)) =
    readMolecules [⟨[(), ()], [("canonical_isomeric_smiles", "CCO")]⟩] :=
  indexer_deterministic Unit [⟨[(), ()], [("canonical_isomeric_smiles", "CCO")]⟩]
    _ _ rfl rfl

/-- C10: the duplicate-index assertion in `read_molecules` is unreachable:
for every input list the run never ends in the assertion error, and on every
successful run the derived keys are pairwise distinct, because splitting a
derived key at its last dash (whose suffix is all digits) uniquely recovers
the base identifier and the per-base count. -/
theorem indexer_dup_assert_unreachable (M : Type) (l : List (MRecord M)) :
    isDupIndexAssert (readMolecules l) = false ∧
    ∀ md ma, readMolecules l = .ok (md, ma) → (md.map Prod.fst).Nodup := by
  constructor
  · exact readMoleculesLoop_no_assert l (fun _ => 0) [] []
      (by intro b n hmem; simp at hmem)
  · intro md ma h
    obtain ⟨hmd, -⟩ := readMolecules_ok_shape l md ma h
    rw [hmd, map_fst_keysFor_zip _ _ (le_of_eq (length_allMolecules l).symm) _]
    exact keysFor_nodup _ _

/-- Witness for C10: a concrete input whose base identifier itself contains a
dash and digits ("C-1", adversarial for key collisions) runs without the
assertion and with distinct keys. -/
theorem indexer_dup_assert_unreachable_witness :
    isDupIndexAssert (readMolecules
      ([⟨[0, 1], [("canonical_isomeric_smiles", "C-1")]⟩,
        ⟨[2], [("canonical_isomeric_smiles", "C")]⟩] : List (MRecord Nat))) = false ∧
    (([("C-1-0", (⟨0⟩ : Molecule Nat)), ("C-1-1", ⟨1⟩), ("C-0", ⟨2⟩)] : MolDict Nat).map
      Prod.fst).Nodup :=
  ⟨(indexer_dup_assert_unreachable Nat
      [⟨[0, 1], [("canonical_isomeric_smiles", "C-1")]⟩,
       ⟨[2], [("canonical_isomeric_smiles", "C")]⟩]).1,
   (indexer_dup_assert_unreachable Nat
      [⟨[0, 1], [("canonical_isomeric_smiles", "C-1")]⟩,
       ⟨[2], [("canonical_isomeric_smiles", "C")]⟩]).2
     [("C-1-0", ⟨0⟩), ("C-1-1", ⟨1⟩), ("C-0", ⟨2⟩)]
     [("C-1-0", [("canonical_isomeric_smiles", "C-1")]),
      ("C-1-1", [("canonical_isomeric_smiles", "C-1")]),
      ("C-0", [("canonical_isomeric_smiles", "C")])] rfl⟩

/-! ### Structure of the torsion entry loop -/

/-- The accumulated trace is only ever appended to: a run from any
accumulator equals the run from the empty accumulator with the accumulator
prepended, and the counter and error do not depend on the accumulator. -/
theorem torsionLoop_frame (gc : List String → G → List (Nat × Nat))
    (ar : String → AddResult) :
    ∀ (entries : List (String × TorsionData G)) (i : Nat) (tr : List (TEvent G)),
    torsionLoop gc ar entries i tr =
      ⟨tr ++ (torsionLoop gc ar entries i []).trace,
       (torsionLoop gc ar entries i []).i,
       (torsionLoop gc ar entries i []).error⟩ := by
  intro entries
  induction entries with
  | nil => intro i tr; simp [torsionLoop]
  | cons e rest ih =>
    intro i tr
    obtain ⟨name, td⟩ := e
    simp only [torsionLoop]
    cases hmol : td.initial_molecules with
    | nil => simp
    | cons m0 ms =>
      by_cases hc : connCheck gc m0
      · simp only [hc, if_true]
        cases har : ar name with
        | ok =>
          by_cases h30 : ((i + 1) % 30 == 0)
          · simp only [h30, if_true, List.nil_append]
            rw [ih (i + 1) (tr ++ [_, _]), ih (i + 1) [_, _]]
            simp
          · simp only [h30, Bool.false_eq_true, if_false, List.nil_append]
            rw [ih (i + 1) (tr ++ [_]), ih (i + 1) [_]]
            simp
        | keyError =>
          simp only [List.nil_append]
          rw [ih i (tr ++ [_]), ih i [_]]
          simp
        | otherError => simp
      · simp only [hc, Bool.false_eq_true, if_false]
        simp

/-- Provenance of torsion-trace events: every event of a run is either carried
over from the accumulator, a `ds.save()`, or the `ds.add_entry` call built
from some input entry, with `initial_molecules`, `atom_indices` and
`attributes` taken from that entry unchanged and `grid_spacings` equal to
`[15] * len(atom_indices)`. -/
theorem torsionLoop_event_provenance (gc : List String → G → List (Nat × Nat))
    (ar : String → AddResult) :
    ∀ (entries : List (String × TorsionData G)) (i : Nat) (tr : List (TEvent G))
      (e : TEvent G), e ∈ (torsionLoop gc ar entries i tr).trace →
      e ∈ tr ∨ e = .save ∨ ∃ name td, (name, td) ∈ entries ∧
        e = TEvent.addEntry name td.initial_molecules td.atom_indices
          (List.replicate td.atom_indices.length 15) td.attributes (ar name) := by
  intro entries
  induction entries with
  | nil =>
    intro i tr e he
    simp only [torsionLoop] at he
    rcases List.mem_append.mp he with h | h
    · exact Or.inl h
    · simp at h
      exact Or.inr (Or.inl h)
  | cons ent rest ih =>
    intro i tr e he
    obtain ⟨name, td⟩ := ent
    simp only [torsionLoop] at he
    cases hmol : td.initial_molecules with
    | nil =>
      rw [hmol] at he
      exact Or.inl he
    | cons m0 ms =>
      rw [hmol] at he
      by_cases hc : connCheck gc m0
      · simp only [hc, if_true] at he
        have hstep : ∀ (i1 : Nat) (tr1 : List (TEvent G)),
            e ∈ (torsionLoop gc ar rest i1 tr1).trace →
            e ∈ tr1 ∨ e = .save ∨ ∃ name1 td1, (name1, td1) ∈ (name, td) :: rest ∧
              e = TEvent.addEntry name1 td1.initial_molecules td1.atom_indices
                (List.replicate td1.atom_indices.length 15) td1.attributes (ar name1) := by
          intro i1 tr1 h1
          rcases ih i1 tr1 e h1 with h | h | ⟨n1, t1, hmem, hform⟩
          · exact Or.inl h
          · exact Or.inr (Or.inl h)
          · exact Or.inr (Or.inr ⟨n1, t1, List.mem_cons_of_mem _ hmem, hform⟩)
        have hself : ∀ res, res = ar name →
            e = TEvent.addEntry name (m0 :: ms) td.atom_indices
              (List.replicate td.atom_indices.length 15) td.attributes res →
            e ∈ tr ∨ e = .save ∨ ∃ name1 td1, (name1, td1) ∈ (name, td) :: rest ∧
              e = TEvent.addEntry name1 td1.initial_molecules td1.atom_indices
                (List.replicate td1.atom_indices.length 15) td1.attributes (ar name1) := by
          intro res hres hform
          refine Or.inr (Or.inr ⟨name, td, List.mem_cons_self _ _, ?_⟩)
          rw [hform, hmol, hres]
        cases har : ar name with
        | ok =>
          rw [har] at he
          by_cases h30 : ((i + 1) % 30 == 0)
          · rw [if_pos h30] at he
            rcases hstep (i + 1) _ he with h | h | h
            · rcases List.mem_append.mp h with h | h
              · exact Or.inl h
              · simp only [List.mem_cons, List.mem_singleton] at h
                rcases h with h | h
                · exact hself _ har.symm h
                · exact Or.inr (Or.inl (by simp at h; exact h))
            · exact Or.inr (Or.inl h)
            · exact Or.inr (Or.inr h)
          · rw [if_neg h30] at he
            rcases hstep (i + 1) _ he with h | h | h
            · rcases List.mem_append.mp h with h | h
              · exact Or.inl h
              · simp only [List.mem_singleton] at h
                exact hself _ har.symm h
            · exact Or.inr (Or.inl h)
            · exact Or.inr (Or.inr h)
        | keyError =>
          rw [har] at he
          rcases hstep i _ he with h | h | h
          · rcases List.mem_append.mp h with h | h
            · exact Or.inl h
            · simp only [List.mem_singleton] at h
              exact hself _ har.symm h
          · exact Or.inr (Or.inl h)
          · exact Or.inr (Or.inr h)
        | otherError =>
          rw [har] at he
          simp only at he
          rcases List.mem_append.mp he with h | h
          · exact Or.inl h
          · simp only [List.mem_singleton] at h
            exact hself _ har.symm h
      · simp only [hc, Bool.false_eq_true, if_false] at he
        exact Or.inl he

/-! ### Claim theorems: torsion Validator and entry loop -/

/-- C5: for a torsion record with a first molecule, the entry loop raises the
connectivity assertion — aborting the whole run with the trace frozen and no
entry submitted — exactly when the number of inferred bonds plus 3 does not
exceed the molecule's atom count; when the check passes, the record proceeds
unchanged to the `ds.add_entry` call. -/
theorem validator_connectivity_assertion (G : Type)
    (gc : List String → G → List (Nat × Nat)) (ar : String → AddResult)
    (name : String) (td : TorsionData G) (rest : List (String × TorsionData G))
    (i : Nat) (tr : List (TEvent G)) (m0 : RawMolecule G) (ms : List (RawMolecule G))
    (hmol : td.initial_molecules = m0 :: ms) :
    (¬ ((gc m0.symbols m0.geometry).length + 3 > m0.symbols.length) →
      torsionLoop gc ar ((name, td) :: rest) i tr =
        ⟨tr, i, some (.assertionError "connectivity")⟩) ∧
    (((gc m0.symbols m0.geometry).length + 3 > m0.symbols.length) →
      ∃ more, (torsionLoop gc ar ((name, td) :: rest) i tr).trace =
        tr ++ TEvent.addEntry name td.initial_molecules td.atom_indices
          (List.replicate td.atom_indices.length 15) td.attributes (ar name) :: more) := by
  constructor
  · intro h
    have hc : connCheck gc m0 = false := by
      simp only [connCheck, decide_eq_false_iff_not]
      exact h
    simp only [torsionLoop, hmol, hc, Bool.false_eq_true, if_false]
  · intro h
    have hc : connCheck gc m0 = true := by
      simp only [connCheck, decide_eq_true_eq]
      exact h
    simp only [torsionLoop, hmol, hc, if_true]
    cases har : ar name with
    | ok =>
      by_cases h30 : ((i + 1) % 30 == 0)
      · rw [if_pos h30, torsionLoop_frame gc ar rest (i + 1) (tr ++ [_, _])]
        exact ⟨TEvent.save :: (torsionLoop gc ar rest (i + 1) []).trace, by simp⟩
      · rw [if_neg h30, torsionLoop_frame gc ar rest (i + 1) (tr ++ [_])]
        exact ⟨(torsionLoop gc ar rest (i + 1) []).trace, by simp⟩
    | keyError =>
      rw [torsionLoop_frame gc ar rest i (tr ++ [_])]
      exact ⟨(torsionLoop gc ar rest i []).trace, by simp⟩
    | otherError =>
      exact ⟨[], by simp⟩

/-- Witness for C5: a five-atom molecule with no inferred bonds fails the
check (3 is not greater than 5) and the run aborts with the assertion. -/
theorem validator_connectivity_assertion_witness :
    torsionLoop (G := Unit) (fun _ _ => []) (fun _ => AddResult.ok)
      [("frag", ⟨[⟨["C", "C", "C", "C", "C"], ()⟩], [[0, 1, 2, 3]], []⟩)] 0 [] =
      ⟨[], 0, some (.assertionError "connectivity")⟩ :=
  (validator_connectivity_assertion Unit (fun _ _ => []) (fun _ => AddResult.ok)
    "frag" ⟨[⟨["C", "C", "C", "C", "C"], ()⟩], [[0, 1, 2, 3]], []⟩ [] 0 []
    ⟨["C", "C", "C", "C", "C"], ()⟩ [] rfl).1 (by decide)

/-- C6: every `ds.add_entry` call of the torsion entry loop passes a
`grid_spacings` list equal to `[15] * len(atom_indices)` — one value 15 per
atom-index tuple, so both lists always have equal length; and a single record
with atom_indices `[[0,1,2,3]]` is submitted exactly once, with grid_spacings
`[15]`. -/
theorem torsion_grid_spacings_per_tuple :
    (∀ (G : Type) (gc : List String → G → List (Nat × Nat)) (ar : String → AddResult)
      (entries : List (String × TorsionData G)) (name : String)
      (mols : List (RawMolecule G)) (aidx : List (List Nat)) (gs : List Nat)
      (attrs : Attrs) (res : AddResult),
      TEvent.addEntry name mols aidx gs attrs res ∈ (torsionRun gc ar entries).trace →
      gs = List.replicate aidx.length 15 ∧ gs.length = aidx.length) ∧
    (torsionRun (G := Unit) (fun _ _ => [(0, 1)]) (fun _ => AddResult.ok)
      [("rot_1", ⟨[⟨["C", "C"], ()⟩], [[0, 1, 2, 3]],
        [("canonical_isomeric_smiles", "CC")]⟩)]).trace =
      [TEvent.addEntry "rot_1" [⟨["C", "C"], ()⟩] [[0, 1, 2, 3]] [15]
        [("canonical_isomeric_smiles", "CC")] AddResult.ok, TEvent.save] := by
  constructor
  · intro G gc ar entries name mols aidx gs attrs res hmem
    have hmem1 : TEvent.addEntry name mols aidx gs attrs res ∈
        (torsionLoop gc ar entries 0 []).trace := hmem
    rcases torsionLoop_event_provenance gc ar entries 0 [] _ hmem1 with h | h | ⟨n1, t1, _, hform⟩
    · simp at h
    · exact absurd h (by simp)
    · simp only [TEvent.addEntry.injEq] at hform
      obtain ⟨-, -, h3, h4, -, -⟩ := hform
      refine ⟨by rw [h4, h3], ?_⟩
      rw [h4, h3, List.length_replicate]
  · decide

/-- Witness for C6: the scenario record yields grid spacings `[15]` for the
single atom-index tuple `[0,1,2,3]`, lists of equal length. -/
theorem torsion_grid_spacings_per_tuple_witness :
    ([15] : List Nat) = List.replicate ([[0, 1, 2, 3]] : List (List Nat)).length 15 ∧
    ([15] : List Nat).length = ([[0, 1, 2, 3]] : List (List Nat)).length :=
  torsion_grid_spacings_per_tuple.1 Unit (fun _ _ => [(0, 1)]) (fun _ => AddResult.ok)
    [("rot_1", ⟨[⟨["C", "C"], ()⟩], [[0, 1, 2, 3]],
      [("canonical_isomeric_smiles", "CC")]⟩)]
    "rot_1" [⟨["C", "C"], ()⟩] [[0, 1, 2, 3]] [15]
    [("canonical_isomeric_smiles", "CC")] AddResult.ok (by decide)

/-- C9: the pipelines never mutate molecule records or attribute mappings:
every torsion add-entry call passes some input entry's initial molecules,
atom indices and attributes unchanged, and every `read_molecules` output pairs
each key with the toolkit parse of a loaded raw payload and with some record's
`cmiles_identifiers`, unchanged. -/
theorem pipeline_passes_data_through :
    (∀ (G : Type) (gc : List String → G → List (Nat × Nat)) (ar : String → AddResult)
      (entries : List (String × TorsionData G)) (name : String)
      (mols : List (RawMolecule G)) (aidx : List (List Nat)) (gs : List Nat)
      (attrs : Attrs) (res : AddResult),
      TEvent.addEntry name mols aidx gs attrs res ∈ (torsionRun gc ar entries).trace →
      ∃ td, (name, td) ∈ entries ∧ mols = td.initial_molecules ∧
        aidx = td.atom_indices ∧ attrs = td.attributes) ∧
    (∀ (M : Type) (l : List (MRecord M)) (md : MolDict M) (ma : AttrDict),
      readMolecules l = .ok (md, ma) →
      (∀ p ∈ md, ∃ r ∈ l, ∃ im ∈ r.initial_molecules, p.2 = Molecule.from_data im) ∧
      (∀ q ∈ ma, ∃ r ∈ l, q.2 = r.cmiles_identifiers)) := by
  constructor
  · intro G gc ar entries name mols aidx gs attrs res hmem
    have hmem1 : TEvent.addEntry name mols aidx gs attrs res ∈
        (torsionLoop gc ar entries 0 []).trace := hmem
    rcases torsionLoop_event_provenance gc ar entries 0 [] _ hmem1 with h | h | ⟨n1, t1, hm1, hform⟩
    · simp at h
    · exact absurd h (by simp)
    · simp only [TEvent.addEntry.injEq] at hform
      obtain ⟨h1, h2, h3, -, h5, -⟩ := hform
      subst h1
      exact ⟨t1, hm1, h2, h3, h5⟩
  · intro M l md ma h
    obtain ⟨hmd, hma⟩ := readMolecules_ok_shape l md ma h
    constructor
    · intro p hp
      obtain ⟨k, v⟩ := p
      rw [hmd] at hp
      have hv : v ∈ allMolecules l := (List.of_mem_zip hp).2
      simp only [allMolecules, List.mem_flatMap, List.mem_map] at hv
      obtain ⟨r, hr, im, him, heq⟩ := hv
      exact ⟨r, hr, im, him, heq.symm⟩
    · intro q hq
      obtain ⟨k, v⟩ := q
      rw [hma] at hq
      have hv : v ∈ allAttrs l := (List.of_mem_zip hq).2
      simp only [allAttrs, List.mem_flatMap] at hv
      obtain ⟨r, hr, hrep⟩ := hv
      exact ⟨r, hr, (List.eq_of_mem_replicate hrep)⟩

/-- Witness for C9: concrete pass-through on both pipelines. -/
theorem pipeline_passes_data_through_witness :
    (∃ td, ("rot_1", td) ∈
        [("rot_1", (⟨[⟨["C", "C"], ()⟩], [[0, 1, 2, 3]],
          [("canonical_isomeric_smiles", "CC")]⟩ : TorsionData Unit))] ∧
      [(⟨["C", "C"], ()⟩ : RawMolecule Unit)] = td.initial_molecules ∧
      ([[0, 1, 2, 3]] : List (List Nat)) = td.atom_indices ∧
      [("canonical_isomeric_smiles", "CC")] = td.attributes) ∧
    (∃ r ∈ ([⟨[(), ()], [("canonical_isomeric_smiles", "CCO")]⟩] : List (MRecord Unit)),
      ∃ im ∈ r.initial_molecules,
        (("CCO-0", (⟨()⟩ : Molecule Unit)) : String × Molecule Unit).2 =
          Molecule.from_data im) :=
  ⟨pipeline_passes_data_through.1 Unit (fun _ _ => [(0, 1)]) (fun _ => AddResult.ok)
    [("rot_1", ⟨[⟨["C", "C"], ()⟩], [[0, 1, 2, 3]],
      [("canonical_isomeric_smiles", "CC")]⟩)]
    "rot_1" [⟨["C", "C"], ()⟩] [[0, 1, 2, 3]] [15]
    [("canonical_isomeric_smiles", "CC")] AddResult.ok (by decide),
   (pipeline_passes_data_through.2 Unit
     [⟨[(), ()], [("canonical_isomeric_smiles", "CCO")]⟩]
     [("CCO-0", ⟨()⟩), ("CCO-1", ⟨()⟩)]
     [("CCO-0", [("canonical_isomeric_smiles", "CCO")]),
      ("CCO-1", [("canonical_isomeric_smiles", "CCO")])] rfl).1
     ("CCO-0", ⟨()⟩) (by decide)⟩

/-! ### Save discipline of the torsion entry loop -/

theorem okCount_cons (e : TEvent G) (l : List (TEvent G)) :
    okCount (e :: l) = okCount l + (if e.isOkAdd = true then 1 else 0) :=
  List.countP_cons _ _ _

theorem okCount_ok_cons (e : TEvent G) (l : List (TEvent G)) (h : e.isOkAdd = true) :
    okCount (e :: l) = okCount l + 1 := by
  rw [okCount_cons, if_pos h]

theorem okCount_not_ok_cons (e : TEvent G) (l : List (TEvent G)) (h : e.isOkAdd = false) :
    okCount (e :: l) = okCount l := by
  rw [okCount_cons, h]
  simp

theorem isOkAdd_ne_save (e : TEvent G) (h : e.isOkAdd = true) : e ≠ TEvent.save := by
  intro hcon
  rw [hcon] at h
  exact absurd h (by simp [TEvent.isOkAdd])

/-- Save-discipline properties survive prepending one event that does not
itself trigger a save: either a skipped (duplicate-key) add-entry, or a
successful one whose new count is not a multiple of 30. -/
theorem save_discipline_shift (i iR : Nat) (e1 : TEvent G) (T : List (TEvent G))
    (hicount : i + (if e1.isOkAdd = true then 1 else 0) = iR)
    (hnotsave : e1 ≠ TEvent.save)
    (hnotrigger : e1.isOkAdd = true → iR % 30 ≠ 0)
    (hlast : T.getLast? = some TEvent.save)
    (hC : ∀ k, k + 1 < T.length → T[k]? = some TEvent.save →
      ∃ kp, k = kp + 1 ∧ (∃ ev, T[kp]? = some ev ∧ ev.isOkAdd = true) ∧
        (iR + okCount (T.take k)) % 30 = 0)
    (hD : ∀ k ev, T[k]? = some ev → ev.isOkAdd = true →
      (iR + okCount (T.take (k + 1))) % 30 = 0 → T[k + 1]? = some TEvent.save) :
    ((e1 :: T).getLast? = some TEvent.save) ∧
    (∀ k, k + 1 < (e1 :: T).length → (e1 :: T)[k]? = some TEvent.save →
      ∃ kp, k = kp + 1 ∧ (∃ ev, (e1 :: T)[kp]? = some ev ∧ ev.isOkAdd = true) ∧
        (i + okCount ((e1 :: T).take k)) % 30 = 0) ∧
    (∀ k ev, (e1 :: T)[k]? = some ev → ev.isOkAdd = true →
      (i + okCount ((e1 :: T).take (k + 1))) % 30 = 0 →
      (e1 :: T)[k + 1]? = some TEvent.save) := by
  have hshiftcnt : ∀ j, i + okCount ((e1 :: T).take (j + 1)) = iR + okCount (T.take j) := by
    intro j
    rw [List.take_succ_cons, okCount_cons]
    omega
  refine ⟨?_, ?_, ?_⟩
  · have hne : T ≠ [] := by
      intro hcon
      rw [hcon] at hlast
      simp at hlast
    rw [show e1 :: T = [e1] ++ T from rfl, List.getLast?_append, hlast]
    rfl
  · intro k hk hsave
    cases k with
    | zero =>
      rw [List.getElem?_cons_zero] at hsave
      exact absurd (Option.some.inj hsave) hnotsave
    | succ j =>
      rw [List.getElem?_cons_succ] at hsave
      simp only [List.length_cons] at hk
      obtain ⟨jp, hjp, ⟨ev, hev, hok⟩, hmod⟩ := hC j (by omega) hsave
      refine ⟨jp + 1, by omega, ⟨ev, by rw [List.getElem?_cons_succ]; exact hev, hok⟩, ?_⟩
      rw [hshiftcnt j]
      exact hmod
  · intro k ev hev hok hmod
    cases k with
    | zero =>
      rw [List.getElem?_cons_zero] at hev
      have he1 : e1 = ev := Option.some.inj hev
      rw [← he1] at hok
      rw [hshiftcnt 0] at hmod
      simp only [List.take_zero] at hmod
      have hmod0 : iR % 30 = 0 := by simpa [okCount] using hmod
      exact absurd hmod0 (hnotrigger hok)
    | succ j =>
      rw [List.getElem?_cons_succ] at hev
      rw [hshiftcnt (j + 1)] at hmod
      have := hD j ev hev hok hmod
      rw [List.getElem?_cons_succ]
      exact this

/-- Save-discipline properties survive prepending a successful add-entry whose
new count is a multiple of 30 together with its triggered save. -/
theorem save_discipline_shift2 (i iR : Nat) (e1 : TEvent G) (T : List (TEvent G))
    (he1 : e1.isOkAdd = true)
    (hicount : i + 1 = iR)
    (htrigger : iR % 30 = 0)
    (hlast : T.getLast? = some TEvent.save)
    (hC : ∀ k, k + 1 < T.length → T[k]? = some TEvent.save →
      ∃ kp, k = kp + 1 ∧ (∃ ev, T[kp]? = some ev ∧ ev.isOkAdd = true) ∧
        (iR + okCount (T.take k)) % 30 = 0)
    (hD : ∀ k ev, T[k]? = some ev → ev.isOkAdd = true →
      (iR + okCount (T.take (k + 1))) % 30 = 0 → T[k + 1]? = some TEvent.save) :
    ((e1 :: TEvent.save :: T).getLast? = some TEvent.save) ∧
    (∀ k, k + 1 < (e1 :: TEvent.save :: T).length →
      (e1 :: TEvent.save :: T)[k]? = some TEvent.save →
      ∃ kp, k = kp + 1 ∧
        (∃ ev, (e1 :: TEvent.save :: T)[kp]? = some ev ∧ ev.isOkAdd = true) ∧
        (i + okCount ((e1 :: TEvent.save :: T).take k)) % 30 = 0) ∧
    (∀ k ev, (e1 :: TEvent.save :: T)[k]? = some ev → ev.isOkAdd = true →
      (i + okCount ((e1 :: TEvent.save :: T).take (k + 1))) % 30 = 0 →
      (e1 :: TEvent.save :: T)[k + 1]? = some TEvent.save) := by
  have hsavenotok : (TEvent.save : TEvent G).isOkAdd = false := by
    simp [TEvent.isOkAdd]
  have hshiftcnt : ∀ j, i + okCount ((e1 :: TEvent.save :: T).take (j + 2)) =
      iR + okCount (T.take j) := by
    intro j
    rw [List.take_succ_cons, List.take_succ_cons, okCount_cons, okCount_cons,
      if_pos he1, hsavenotok]
    simp
    omega
  refine ⟨?_, ?_, ?_⟩
  · have hne : T ≠ [] := by
      intro hcon
      rw [hcon] at hlast
      simp at hlast
    rw [show e1 :: TEvent.save :: T = [e1, TEvent.save] ++ T from rfl,
      List.getLast?_append, hlast]
    rfl
  · intro k hk hsave
    match k with
    | 0 =>
      rw [List.getElem?_cons_zero] at hsave
      exact absurd (Option.some.inj hsave) (isOkAdd_ne_save e1 he1)
    | 1 =>
      refine ⟨0, rfl, ⟨e1, by rw [List.getElem?_cons_zero], he1⟩, ?_⟩
      rw [List.take_succ_cons, List.take_zero, okCount_ok_cons e1 [] he1]
      have : okCount ([] : List (TEvent G)) = 0 := by simp [okCount]
      omega
    | j + 2 =>
      rw [List.getElem?_cons_succ, List.getElem?_cons_succ] at hsave
      simp only [List.length_cons] at hk
      obtain ⟨jp, hjp, ⟨ev, hev, hok⟩, hmod⟩ := hC j (by omega) hsave
      refine ⟨jp + 2, by omega,
        ⟨ev, by rw [List.getElem?_cons_succ, List.getElem?_cons_succ]; exact hev, hok⟩, ?_⟩
      rw [hshiftcnt j]
      exact hmod
  · intro k ev hev hok hmod
    match k with
    | 0 =>
      rw [List.getElem?_cons_succ, List.getElem?_cons_zero]
    | 1 =>
      rw [List.getElem?_cons_succ, List.getElem?_cons_zero] at hev
      have : (TEvent.save : TEvent G) = ev := Option.some.inj hev
      rw [← this] at hok
      exact absurd hok (by simp [TEvent.isOkAdd])
    | j + 2 =>
      rw [List.getElem?_cons_succ, List.getElem?_cons_succ] at hev
      rw [hshiftcnt (j + 1)] at hmod
      have := hD j ev hev hok hmod
      rw [List.getElem?_cons_succ, List.getElem?_cons_succ]
      exact this

/-- Save discipline of the torsion entry loop, for runs from an arbitrary
counter value that finish without an uncaught error: the final event is the
unconditional `ds.save()`; every earlier save immediately follows a successful
addition bringing the counter to a multiple of 30; and every such addition is
immediately followed by a save. -/
theorem torsionLoop_save_discipline (gc : List String → G → List (Nat × Nat))
    (ar : String → AddResult) :
    ∀ (entries : List (String × TorsionData G)) (i : Nat),
    (torsionLoop gc ar entries i []).error = none →
    ((torsionLoop gc ar entries i []).trace.getLast? = some TEvent.save) ∧
    (∀ k, k + 1 < (torsionLoop gc ar entries i []).trace.length →
      (torsionLoop gc ar entries i []).trace[k]? = some TEvent.save →
      ∃ kp, k = kp + 1 ∧
        (∃ ev, (torsionLoop gc ar entries i []).trace[kp]? = some ev ∧
          ev.isOkAdd = true) ∧
        (i + okCount ((torsionLoop gc ar entries i []).trace.take k)) % 30 = 0) ∧
    (∀ k ev, (torsionLoop gc ar entries i []).trace[k]? = some ev →
      ev.isOkAdd = true →
      (i + okCount ((torsionLoop gc ar entries i []).trace.take (k + 1))) % 30 = 0 →
      (torsionLoop gc ar entries i []).trace[k + 1]? = some TEvent.save) := by
  intro entries
  induction entries with
  | nil =>
    intro i herr
    have hstep : torsionLoop gc ar ([] : List (String × TorsionData G)) i [] =
        ⟨[TEvent.save], i, none⟩ := by simp [torsionLoop]
    rw [hstep]
    refine ⟨rfl, ?_, ?_⟩
    · intro k hk hsave
      simp only [List.length_singleton] at hk
      omega
    · intro k ev hev hok hmod
      match k with
      | 0 =>
        rw [List.getElem?_cons_zero] at hev
        have hsv : (TEvent.save : TEvent G) = ev := Option.some.inj hev
        rw [← hsv] at hok
        exact absurd hok (by simp [TEvent.isOkAdd])
      | j + 1 =>
        rw [List.getElem?_cons_succ] at hev
        simp at hev
  | cons ent rest ih =>
    intro i herr
    obtain ⟨name, td⟩ := ent
    cases hmol : td.initial_molecules with
    | nil =>
      have hstep : torsionLoop gc ar ((name, td) :: rest) i [] =
          ⟨[], i, some (.otherError "IndexError")⟩ := by
        simp [torsionLoop, hmol]
      rw [hstep] at herr
      simp at herr
    | cons m0 ms =>
      by_cases hc : connCheck gc m0
      · cases har : ar name with
        | otherError =>
          have hstep : torsionLoop gc ar ((name, td) :: rest) i [] =
              ⟨[] ++ [TEvent.addEntry name (m0 :: ms) td.atom_indices
                  (List.replicate td.atom_indices.length 15) td.attributes
                  AddResult.otherError], i, some (.otherError name)⟩ := by
            simp [torsionLoop, hmol, hc, har]
          rw [hstep] at herr
          simp at herr
        | keyError =>
          have h1 : torsionLoop gc ar ((name, td) :: rest) i [] =
              torsionLoop gc ar rest i
                [TEvent.addEntry name (m0 :: ms) td.atom_indices
                  (List.replicate td.atom_indices.length 15) td.attributes
                  AddResult.keyError] := by
            simp [torsionLoop, hmol, hc, har]
          rw [h1, torsionLoop_frame gc ar rest i _] at herr ⊢
          replace herr : (torsionLoop gc ar rest i []).error = none := herr
          obtain ⟨hlast, hCih, hDih⟩ := ih i herr
          exact save_discipline_shift i i _ (torsionLoop gc ar rest i []).trace
            (by simp [TEvent.isOkAdd]) (by simp)
            (by intro hcon; simp [TEvent.isOkAdd] at hcon)
            hlast hCih hDih
        | ok =>
          by_cases h30 : (((i + 1) % 30 == 0) = true)
          · have h1 : torsionLoop gc ar ((name, td) :: rest) i [] =
                torsionLoop gc ar rest (i + 1)
                  [TEvent.addEntry name (m0 :: ms) td.atom_indices
                    (List.replicate td.atom_indices.length 15) td.attributes
                    AddResult.ok, TEvent.save] := by
              simp [torsionLoop, hmol, hc, har, h30]
            rw [h1, torsionLoop_frame gc ar rest (i + 1) _] at herr ⊢
            replace herr : (torsionLoop gc ar rest (i + 1) []).error = none := herr
            obtain ⟨hlast, hCih, hDih⟩ := ih (i + 1) herr
            exact save_discipline_shift2 i (i + 1) _
              (torsionLoop gc ar rest (i + 1) []).trace
              (by simp [TEvent.isOkAdd]) rfl (by simpa using h30)
              hlast hCih hDih
          · have h1 : torsionLoop gc ar ((name, td) :: rest) i [] =
                torsionLoop gc ar rest (i + 1)
                  [TEvent.addEntry name (m0 :: ms) td.atom_indices
                    (List.replicate td.atom_indices.length 15) td.attributes
                    AddResult.ok] := by
              simp [torsionLoop, hmol, hc, har, h30]
            rw [h1, torsionLoop_frame gc ar rest (i + 1) _] at herr ⊢
            replace herr : (torsionLoop gc ar rest (i + 1) []).error = none := herr
            obtain ⟨hlast, hCih, hDih⟩ := ih (i + 1) herr
            exact save_discipline_shift i (i + 1) _
              (torsionLoop gc ar rest (i + 1) []).trace
              (by simp [TEvent.isOkAdd]) (by simp)
              (by intro _ ; simpa using h30)
              hlast hCih hDih
      · have hstep : torsionLoop gc ar ((name, td) :: rest) i [] =
            ⟨[], i, some (.assertionError "connectivity")⟩ := by
          simp [torsionLoop, hmol, hc]
        rw [hstep] at herr
        simp at herr

/-- The optimization entry loop records only add-entry calls: it never adds a
save event to the trace. -/
theorem optAddEntries_save_count (ar : String → AddResult) :
    ∀ (md : MolDict M) (ma : AttrDict) (tr : List (OptEvent M)),
    (optAddEntries ar md ma tr).trace.countP (fun e => OptEvent.isSave e) =
      tr.countP (fun e => OptEvent.isSave e) := by
  intro md
  induction md with
  | nil => intro ma tr; rfl
  | cons p rest ih =>
    intro ma tr
    obtain ⟨k, mol⟩ := p
    simp only [optAddEntries]
    cases har : ar k with
    | ok =>
      rw [ih ma (tr ++ [_]), List.countP_append]
      simp [OptEvent.isSave]
    | keyError => simp [List.countP_append, OptEvent.isSave]
    | otherError => simp [List.countP_append, OptEvent.isSave]

/-- `create_optimization_dataset` contains no `ds.save()` call at all. -/
theorem create_optimization_dataset_never_saves (ar : String → AddResult)
    (molecules_dict : MolDict M) (spec_name : String)
    (molecule_attributes : AttrDict) (start_compute : Bool) :
    (create_optimization_dataset ar molecules_dict spec_name molecule_attributes
      start_compute).trace.countP (fun e => OptEvent.isSave e) = 0 := by
  have hbase : (optAddEntries ar molecules_dict molecule_attributes
      [OptEvent.addSpecification spec_name]).trace.countP
      (fun e => OptEvent.isSave e) = 0 := by
    rw [optAddEntries_save_count]
    simp [OptEvent.isSave]
  simp only [create_optimization_dataset]
  cases herr : (optAddEntries ar molecules_dict molecule_attributes
      [OptEvent.addSpecification spec_name]).error with
  | some e => exact hbase
  | none =>
    by_cases hs : start_compute
    · simp only [hs, if_true, List.countP_append]
      rw [hbase]
      simp [OptEvent.isSave]
    · simp only [hs, Bool.false_eq_true, if_false]
      exact hbase

/-- Counterexample for C3 as stated: the optimization-pipeline Submitter
(`create_optimization_dataset`) never persists the dataset: a concrete run
that adds one entry and finishes cleanly performs an add-entry call but not a
single save — in particular no unconditional save after the loop, contrary to
the claim. -/
theorem submitter_periodic_save_counterexample :
    (create_optimization_dataset (M := Unit) (fun _ => AddResult.ok)
      [("CCO-0", ⟨()⟩)] "default" [] false).error = none ∧
    (create_optimization_dataset (M := Unit) (fun _ => AddResult.ok)
      [("CCO-0", ⟨()⟩)] "default" [] false).trace.countP
      (fun e => OptEvent.isAddEntry e) = 1 ∧
    (create_optimization_dataset (M := Unit) (fun _ => AddResult.ok)
      [("CCO-0", ⟨()⟩)] "default" [] false).trace.countP
      (fun e => OptEvent.isSave e) = 0 :=
  ⟨rfl, rfl, rfl⟩

/-- C3 (amended): in the torsion pipeline, every run of the entry loop that
finishes without an uncaught error ends with one unconditional `ds.save()`;
every earlier save comes exactly immediately after a successful addition that
brings the success counter to a multiple of 30, and every such addition is
immediately followed by a save. The optimization pipeline
(`create_optimization_dataset`) never persists the dataset at all. -/
theorem submitter_periodic_save_amended :
    (∀ (G : Type) (gc : List String → G → List (Nat × Nat)) (ar : String → AddResult)
      (entries : List (String × TorsionData G)),
      (torsionRun gc ar entries).error = none →
      ((torsionRun gc ar entries).trace.getLast? = some TEvent.save) ∧
      (∀ k, k + 1 < (torsionRun gc ar entries).trace.length →
        (torsionRun gc ar entries).trace[k]? = some TEvent.save →
        ∃ kp, k = kp + 1 ∧
          (∃ ev, (torsionRun gc ar entries).trace[kp]? = some ev ∧
            ev.isOkAdd = true) ∧
          okCount ((torsionRun gc ar entries).trace.take k) % 30 = 0) ∧
      (∀ k ev, (torsionRun gc ar entries).trace[k]? = some ev →
        ev.isOkAdd = true →
        okCount ((torsionRun gc ar entries).trace.take (k + 1)) % 30 = 0 →
        (torsionRun gc ar entries).trace[k + 1]? = some TEvent.save)) ∧
    (∀ (M : Type) (ar : String → AddResult) (molecules_dict : MolDict M)
      (spec_name : String) (molecule_attributes : AttrDict) (start_compute : Bool),
      (create_optimization_dataset ar molecules_dict spec_name molecule_attributes
        start_compute).trace.countP (fun e => OptEvent.isSave e) = 0) := by
  constructor
  · intro G gc ar entries herr
    have h := torsionLoop_save_discipline gc ar entries 0 herr
    refine ⟨h.1, ?_, ?_⟩
    · intro k hk hs
      obtain ⟨kp, h1, h2, h3⟩ := h.2.1 k hk hs
      exact ⟨kp, h1, h2, by simpa using h3⟩
    · intro k ev h1 h2 h3
      exact h.2.2 k ev h1 h2 (by simpa using h3)
  · intro M ar md spec ma start
    exact create_optimization_dataset_never_saves ar md spec ma start

/-- Witness for C3 (amended): a concrete clean torsion run ends in a save, and
a concrete optimization run contains none. -/
theorem submitter_periodic_save_amended_witness :
    ((torsionRun (G := Unit) (fun _ _ => [(0, 1)]) (fun _ => AddResult.ok)
      [("rot_1", ⟨[⟨["C", "C"], ()⟩], [[0, 1, 2, 3]],
        [("canonical_isomeric_smiles", "CC")]⟩)]).trace.getLast? =
      some TEvent.save) ∧
    (create_optimization_dataset (M := Unit) (fun _ => AddResult.ok)
      [("CCO-1", ⟨()⟩)] "spec" [] true).trace.countP
      (fun e => OptEvent.isSave e) = 0 :=
  ⟨(submitter_periodic_save_amended.1 Unit (fun _ _ => [(0, 1)]) (fun _ => AddResult.ok)
      [("rot_1", ⟨[⟨["C", "C"], ()⟩], [[0, 1, 2, 3]],
        [("canonical_isomeric_smiles", "CC")]⟩)] rfl).1,
   submitter_periodic_save_amended.2 Unit (fun _ => AddResult.ok)
     [("CCO-1", ⟨()⟩)] "spec" [] true⟩

/-- Counterexample for C2 as stated: the optimization-pipeline Submitter
(`create_optimization_dataset`) has no handler around `ds.add_entry`: on a
concrete run whose first of two entries is rejected with a duplicate-key
error, the run aborts with the uncaught KeyError and the second entry is
never attempted, instead of being skipped-and-continued. -/
theorem submitter_duplicate_key_counterexample :
    (create_optimization_dataset (M := Unit)
      (fun k => if k == "CCO-0" then AddResult.keyError else AddResult.ok)
      [("CCO-0", ⟨()⟩), ("CCO-1", ⟨()⟩)] "default" [] false).error =
      some (.keyError "CCO-0") ∧
    (create_optimization_dataset (M := Unit)
      (fun k => if k == "CCO-0" then AddResult.keyError else AddResult.ok)
      [("CCO-0", ⟨()⟩), ("CCO-1", ⟨()⟩)] "default" [] false).trace.countP
      (fun e => OptEvent.isAddEntry e) = 1 :=
  ⟨rfl, rfl⟩

/-- C2 (amended): in the torsion pipeline, a duplicate-key (KeyError)
rejection of `ds.add_entry` makes the loop skip the entry — the success
counter is unchanged and processing continues with the remaining entries —
while any other add-entry error aborts the run; in the optimization pipeline
there is no handler, so even a duplicate-key error aborts the run and later
entries are never attempted. -/
theorem submitter_duplicate_key_amended :
    (∀ (G : Type) (gc : List String → G → List (Nat × Nat)) (ar : String → AddResult)
      (name : String) (td : TorsionData G) (rest : List (String × TorsionData G))
      (i : Nat) (tr : List (TEvent G)) (m0 : RawMolecule G) (ms : List (RawMolecule G)),
      td.initial_molecules = m0 :: ms → connCheck gc m0 = true →
      ar name = AddResult.keyError →
      torsionLoop gc ar ((name, td) :: rest) i tr =
        torsionLoop gc ar rest i
          (tr ++ [TEvent.addEntry name td.initial_molecules td.atom_indices
            (List.replicate td.atom_indices.length 15) td.attributes
            AddResult.keyError])) ∧
    (∀ (G : Type) (gc : List String → G → List (Nat × Nat)) (ar : String → AddResult)
      (name : String) (td : TorsionData G) (rest : List (String × TorsionData G))
      (i : Nat) (tr : List (TEvent G)) (m0 : RawMolecule G) (ms : List (RawMolecule G)),
      td.initial_molecules = m0 :: ms → connCheck gc m0 = true →
      ar name = AddResult.otherError →
      torsionLoop gc ar ((name, td) :: rest) i tr =
        ⟨tr ++ [TEvent.addEntry name td.initial_molecules td.atom_indices
          (List.replicate td.atom_indices.length 15) td.attributes
          AddResult.otherError], i, some (.otherError name)⟩) ∧
    (∀ (M : Type) (ar : String → AddResult) (k : String) (mol : Molecule M)
      (rest : MolDict M) (ma : AttrDict) (tr : List (OptEvent M)),
      ar k = AddResult.keyError →
      optAddEntries ar ((k, mol) :: rest) ma tr =
        ⟨tr ++ [OptEvent.addEntry k mol (getAttrsD ma k) AddResult.keyError],
         some (.keyError k)⟩) := by
  refine ⟨?_, ?_, ?_⟩
  · intro G gc ar name td rest i tr m0 ms hmol hc har
    simp [torsionLoop, hmol, hc, har]
  · intro G gc ar name td rest i tr m0 ms hmol hc har
    simp [torsionLoop, hmol, hc, har]
  · intro M ar k mol rest ma tr har
    simp [optAddEntries, har]

/-- Witness for C2 (amended): each clause evaluated at a concrete input. -/
theorem submitter_duplicate_key_amended_witness :
    (torsionLoop (G := Unit) (fun _ _ => [(0, 1)]) (fun _ => AddResult.keyError)
      [("rot_1", ⟨[⟨["C", "C"], ()⟩], [[0, 1, 2, 3]], []⟩)] 0 [] =
      torsionLoop (G := Unit) (fun _ _ => [(0, 1)]) (fun _ => AddResult.keyError) [] 0
        [TEvent.addEntry "rot_1" [⟨["C", "C"], ()⟩] [[0, 1, 2, 3]] [15] []
          AddResult.keyError]) ∧
    (torsionLoop (G := Unit) (fun _ _ => [(0, 1)]) (fun _ => AddResult.otherError)
      [("rot_1", ⟨[⟨["C", "C"], ()⟩], [[0, 1, 2, 3]], []⟩)] 0 [] =
      ⟨[TEvent.addEntry "rot_1" [⟨["C", "C"], ()⟩] [[0, 1, 2, 3]] [15] []
        AddResult.otherError], 0, some (.otherError "rot_1")⟩) ∧
    (optAddEntries (M := Unit) (fun _ => AddResult.keyError)
      [("CCO-0", ⟨()⟩)] [] [] =
      ⟨[OptEvent.addEntry "CCO-0" ⟨()⟩ [] AddResult.keyError],
       some (.keyError "CCO-0")⟩) :=
  ⟨submitter_duplicate_key_amended.1 Unit (fun _ _ => [(0, 1)])
     (fun _ => AddResult.keyError) "rot_1" ⟨[⟨["C", "C"], ()⟩], [[0, 1, 2, 3]], []⟩
     [] 0 [] ⟨["C", "C"], ()⟩ [] rfl (by decide) rfl,
   submitter_duplicate_key_amended.2.1 Unit (fun _ _ => [(0, 1)])
     (fun _ => AddResult.otherError) "rot_1" ⟨[⟨["C", "C"], ()⟩], [[0, 1, 2, 3]], []⟩
     [] 0 [] ⟨["C", "C"], ()⟩ [] rfl (by decide) rfl,
   submitter_duplicate_key_amended.2.2 Unit (fun _ => AddResult.keyError)
     "CCO-0" ⟨()⟩ [] [] [] rfl⟩

/-! ### Claim theorem: torsion Loader -/

/-- C4 (code evaluated at the failing input): with the target JSON file absent
and the co-located archive present and containing the member, the loader still
fails with FileNotFoundError on the subsequent open. Python's
`TarFile.extractfile` only returns an in-memory reader over the member — the
script discards it and nothing is written to disk (that would be
`TarFile.extract`) — so the decompression step does not make the open-and-parse
succeed. -/
theorem loader_extractfile_does_not_extract :
    loadSelectedTorsions (J := String) (fun s => .ok s)
      ⟨[], [("coverage_selected_torsions.json.tar.gz",
        [⟨"coverage_selected_torsions.json", "selected-torsions-payload"⟩])]⟩ =
      .error (.fileNotFoundError "coverage_selected_torsions.json") := rfl
